import Mathlib

/-!
Shallow embedding of the persistence and audit core of `streamlit_app.py`
(chemical waste tracker).  The two SQLite tables (`waste`, `audit`) become
Lean lists kept in insertion order, the `AUTOINCREMENT` id columns become
explicit counters, Python floats become rationals, ISO date strings stay
strings, and every store operation that could in principle raise a Python
exception is modelled in `Except`, so that "fails with such-and-such error"
is a statable (and refutable) property of the embedding.
-/

namespace WasteTracker

/-- Configured business labels (`BUSINESSES` in the source). -/
def BUSINESSES : List String := ["DAB", "CTI"]

/-- Configured waste-stream labels (`STREAMS` in the source). -/
def STREAMS : List String := ["ACN", "DCM"]

/-- Monthly capacity in kg (`MAX_MASS_ON_SITE` in the source). -/
def MAX_MASS_ON_SITE : ℚ := 1000

/-- A row of the `waste` table: `id, date, business, stream, quantity`. -/
structure Entry where
  id : Nat
  date : String
  business : String
  stream : String
  quantity : ℚ
deriving DecidableEq, Repr

/-- A row of the `audit` table: the snapshot columns are nullable
(`entry_date TEXT, business TEXT, stream TEXT, quantity REAL` without
`NOT NULL`), so they are `Option`s here. -/
structure AuditRecord where
  id : Nat
  event : String
  entry_date : Option String
  business : Option String
  stream : Option String
  quantity : Option ℚ
  ts : String
deriving DecidableEq, Repr

/-- The SQLite database: both tables, in row (rowid) order, plus their
`AUTOINCREMENT` sequences.  `wasteNextId` / `auditNextId` model
`sqlite_sequence + 1`: with the `AUTOINCREMENT` keyword the next assigned
id is strictly larger than every id ever handed out, and deleting rows
(including `DELETE FROM waste`) does not lower the sequence. -/
structure DB where
  waste : List Entry
  wasteNextId : Nat
  audit : List AuditRecord
  auditNextId : Nat
deriving DecidableEq, Repr

/-- The exceptions named by the spec's error taxonomy.  The embedding lets
an operation fail with one of these; the source functions never raise, so
whether they ever return `Except.error` is exactly the question the
error-handling claims ask. -/
inductive PyExc where
  | validationError
  | notFoundError
deriving DecidableEq, Repr

/-- One `INSERT INTO audit (event, entry_date, business, stream, quantity, ts)
VALUES (...)` statement: appends a row with the next auto-assigned id. -/
def auditInsert (event : String) (d b s : Option String) (q : Option ℚ)
    (ts : String) (db : DB) : DB :=
  { db with
      audit := db.audit ++
        [{ id := db.auditNextId, event := event, entry_date := d,
           business := b, stream := s, quantity := q, ts := ts }],
      auditNextId := db.auditNextId + 1 }

/-- `insert_entry(entry_date, business, stream, quantity)`: inserts the row
into `waste` (id auto-assigned), then inserts one `insert` audit row with
the same values and the current timestamp `ts`.  The Python function has no
`return` statement, so its value is `None` (the second component); it
contains no validation and no `raise`, so it always returns `Except.ok`. -/
def insert_entry (entry_date business stream : String) (quantity : ℚ)
    (ts : String) (db : DB) : Except PyExc (DB × Option Nat) :=
  let db1 : DB :=
    { db with
        waste := db.waste ++
          [{ id := db.wasteNextId, date := entry_date, business := business,
             stream := stream, quantity := quantity }],
        wasteNextId := db.wasteNextId + 1 }
  Except.ok (auditInsert "insert" (some entry_date) (some business)
      (some stream) (some quantity) ts db1, none)

/-- `delete_entry(entry_id)`: `SELECT`s the row to log it; `if row:` deletes
it and inserts one `delete` audit row with the fetched values; otherwise
(the `if` guard fails) it just closes the connection.  Either way the
function returns `None` and never raises. -/
def delete_entry (entry_id : Nat) (ts : String) (db : DB) :
    Except PyExc (DB × Option Nat) :=
  match db.waste.find? (fun e => e.id == entry_id) with
  | some e =>
      let db1 : DB :=
        { db with waste := db.waste.filter (fun x => x.id != entry_id) }
      Except.ok (auditInsert "delete" (some e.date) (some e.business)
          (some e.stream) (some e.quantity) ts db1, none)
  | none => Except.ok (db, none)

/-- The `for r in rows:` loop of `reset_inventory`: one `reset` audit row
per fetched `waste` row, all carrying the same timestamp `ts`, which the
source computes once before the loop. -/
def resetLoop (ts : String) (rows : List Entry) (db : DB) : DB :=
  match rows with
  | [] => db
  | r :: rest =>
      resetLoop ts rest (auditInsert "reset" (some r.date) (some r.business)
        (some r.stream) (some r.quantity) ts db)

/-- `reset_inventory()`: dumps every current `waste` row to the audit table
as a `reset` event, then `DELETE FROM waste`.  No `return` statement, so
the Python value is `None`. -/
def reset_inventory (ts : String) (db : DB) : DB × Option Nat :=
  let db1 := resetLoop ts db.waste db
  ({ db1 with waste := [] }, none)

/-- The audit rows the reset loop appends, spelled out: starting at audit id
`startId`, one `reset` record per entry, in table order, all stamped `ts`. -/
def resetRecords (startId : Nat) (ts : String) : List Entry → List AuditRecord
  | [] => []
  | e :: rest =>
      { id := startId, event := "reset", entry_date := some e.date,
        business := some e.business, stream := some e.stream,
        quantity := some e.quantity, ts := ts } :: resetRecords (startId + 1) ts rest

/-- Character-by-character leading match: does the second list start with
the first? -/
def likeLoop : List Char → List Char → Bool
  | [], _ => true
  | _ :: _, [] => false
  | p :: ps, c :: cs => p == c && likeLoop ps cs

/-- `date LIKE '<pat>%'` for the wildcard-free, digits-and-dashes patterns
the app passes (`"YYYY-MM"`): true iff `s` starts with `pat`.  (SQLite
`LIKE` is additionally case-insensitive on ASCII letters, which is vacuous
for these patterns.) -/
def likeMatch (pat : String) (s : String) : Bool := likeLoop pat.data s.data

/-- The `WHERE date LIKE '<year_month>%'` filter of `get_monthly_entries`. -/
def monthlyFilter (db : DB) (year_month : String) : List Entry :=
  db.waste.filter (fun e => likeMatch year_month e.date)

/-- SQLite's BINARY collation on TEXT values, non-strict: lexicographic
comparison of the code points, shorter run first. -/
def charsLe : List Char → List Char → Bool
  | [], _ => true
  | _ :: _, [] => false
  | a :: as, b :: bs =>
      if a.toNat < b.toNat then true
      else if b.toNat < a.toNat then false
      else charsLe as bs

/-- SQLite's BINARY collation on TEXT values, strict. -/
def charsLt : List Char → List Char → Bool
  | [], [] => false
  | [], _ :: _ => true
  | _ :: _, [] => false
  | a :: as, b :: bs =>
      if a.toNat < b.toNat then true
      else if b.toNat < a.toNat then false
      else charsLt as bs

/-- The sort key of `ORDER BY date ASC` (TEXT column, binary collation). -/
def dateLe (a b : Entry) : Prop := charsLe a.date.data b.date.data = true

instance : DecidableRel dateLe :=
  fun a b => inferInstanceAs (Decidable (charsLe a.date.data b.date.data = true))

/-- What `SELECT id, date, business, stream, quantity FROM waste WHERE date
LIKE '<ym>%' ORDER BY date ASC` guarantees about its result: it is some
arrangement of exactly the matching rows that is non-decreasing in `date`.
SQL fixes nothing more: the relative order of rows whose `date` values
compare equal is unspecified (the query has no further sort key). -/
def IsMonthlyQueryResult (db : DB) (year_month : String)
    (res : List Entry) : Prop :=
  res.Perm (monthlyFilter db year_month) ∧ res.Pairwise dateLe

/-- One concrete, deterministic refinement of `get_monthly_entries`
(a stable date sort of the matching rows in table order), used to show the
query guarantee is satisfiable. -/
def get_monthly_entries (year_month : String) (db : DB) : List Entry :=
  List.insertionSort dateLe (monthlyFilter db year_month)

/-- The ordering the spec claims for query results: strictly ascending by
date, with ties broken by ascending id. -/
def claimOrder (a b : Entry) : Prop :=
  charsLt a.date.data b.date.data = true ∨ (a.date = b.date ∧ a.id < b.id)

instance : DecidableRel claimOrder :=
  fun a b =>
    inferInstanceAs
      (Decidable (charsLt a.date.data b.date.data = true ∨ (a.date = b.date ∧ a.id < b.id)))

/-- SQL `SUM(quantity)`: `NULL` (here `none`) over the empty set, the sum
otherwise. -/
def sqlSum (xs : List ℚ) : Option ℚ :=
  match xs with
  | [] => none
  | _ => some xs.sum

/-- The `WHERE substr(date,1,4) = str(year)` filter of `get_annual_total`:
the first four characters of the date against the decimal digits of the
year. -/
def yearFilter (db : DB) (year : Nat) : List Entry :=
  db.waste.filter (fun e => e.date.data.take 4 == (toString year).data)

/-- `get_annual_total(year)`: `SELECT SUM(quantity) ... WHERE substr(date,1,4)
= ?`, then `float(s) if s else 0.0`, where Python treats both `None` and
`0.0` as falsy. -/
def get_annual_total (year : Nat) (db : DB) : ℚ :=
  match sqlSum ((yearFilter db year).map (fun e => e.quantity)) with
  | none => 0
  | some v => if v = 0 then 0 else v

/-- The capacity gauge of the source, parameterized over the capacity:
`min(monthly_total / capacity * 100 if capacity > 0 else 0, 100)`
(the source instantiates `capacity` with `MAX_MASS_ON_SITE`). -/
def usage_percent (monthly_total capacity : ℚ) : ℚ :=
  min (if 0 < capacity then monthly_total / capacity * 100 else 0) 100

/-- The warning gate of the source: `if usage_percent >= 80:`. -/
def capacity_warning (monthly_total capacity : ℚ) : Bool :=
  decide (80 ≤ usage_percent monthly_total capacity)

/-- Modelled from the spec: `usage_fraction(monthly_total, capacity)`,
`min(monthly_total / capacity, 1.0)` for positive capacity and `0.0`
otherwise.  Spec-side definition for the refinement claim about the
capacity gauge; the source works in percent. -/
def spec_usage_fraction (monthly_total capacity : ℚ) : ℚ :=
  if 0 < capacity then min (monthly_total / capacity) 1 else 0

/-- Modelled from the spec: `is_over_warning_threshold(fraction)`, true iff
the fraction is at least 0.8. -/
def is_over_warning_threshold (fraction : ℚ) : Bool :=
  decide (8 / 10 ≤ fraction)

/-- One user-level mutation of the store, with the timestamp the operation
reads from the clock. -/
inductive Op where
  | ins (d b s : String) (q : ℚ) (ts : String)
  | del (k : Nat) (ts : String)
  | res (ts : String)

/-- The database after one operation (all three operations return normally,
so only the state component matters for sequencing). -/
def applyOp (db : DB) : Op → DB
  | Op.ins d b s q ts =>
      match insert_entry d b s q ts db with
      | Except.ok (db1, _) => db1
      | Except.error _ => db
  | Op.del k ts =>
      match delete_entry k ts db with
      | Except.ok (db1, _) => db1
      | Except.error _ => db
  | Op.res ts => (reset_inventory ts db).1

/-- The database after a sequence of operations. -/
def runOps (db : DB) (ops : List Op) : DB := ops.foldl applyOp db

/-- A freshly initialised database (both sequences start at 1, as SQLite
rowids do). -/
def dbEmpty : DB := { waste := [], wasteNextId := 1, audit := [], auditNextId := 1 }

/-- A store holding one entry (id 2), with the sequence already past 2. -/
def dbOne : DB :=
  { waste := [{ id := 2, date := "2024-01-20", business := "CTI",
                stream := "DCM", quantity := 500 }],
    wasteNextId := 3, audit := [], auditNextId := 1 }

/-- Two entries sharing one date, for the tie-order question. -/
def eA : Entry :=
  { id := 1, date := "2024-01-05", business := "DAB", stream := "ACN", quantity := 300 }

/-- Second entry with the same date as `eA` but a later id. -/
def eB : Entry :=
  { id := 2, date := "2024-01-05", business := "CTI", stream := "DCM", quantity := 500 }

/-- A store holding `eA` and `eB`. -/
def db2 : DB := { waste := [eA, eB], wasteNextId := 3, audit := [], auditNextId := 1 }

/-- A store in which id 5 was handed out and deleted earlier: the waste
table holds only id 3, the sequence is already at 6, and one audit record
(id 1) exists. -/
def dbW : DB :=
  { waste := [{ id := 3, date := "2024-01-05", business := "DAB",
                stream := "ACN", quantity := 2 }],
    wasteNextId := 6,
    audit := [{ id := 1, event := "insert", entry_date := some "2024-01-05",
                business := some "DAB", stream := some "ACN",
                quantity := some 2, ts := "t0" }],
    auditNextId := 2 }

/-- The surviving entry of `dbW`. -/
def eW : Entry :=
  { id := 3, date := "2024-01-05", business := "DAB", stream := "ACN", quantity := 2 }

/-- The pre-existing audit record of `dbW`. -/
def recW : AuditRecord :=
  { id := 1, event := "insert", entry_date := some "2024-01-05",
    business := some "DAB", stream := some "ACN", quantity := some 2, ts := "t0" }

/-- One follow-up insertion, for exercising sequences of operations. -/
def opsW : List Op := [Op.ins "2024-02-01" "CTI" "DCM" 1 "t1"]

/-! ## Helper lemmas -/

/-- Effect of the reset loop on every component of the state. -/
lemma resetLoop_spec (ts : String) (rows : List Entry) (db : DB) :
    (resetLoop ts rows db).waste = db.waste ∧
    (resetLoop ts rows db).wasteNextId = db.wasteNextId ∧
    (resetLoop ts rows db).audit = db.audit ++ resetRecords db.auditNextId ts rows ∧
    (resetLoop ts rows db).auditNextId = db.auditNextId + rows.length := by
  induction rows generalizing db with
  | nil => simp [resetLoop, resetRecords]
  | cons r rest ih =>
      have h := ih (auditInsert "reset" (some r.date) (some r.business)
        (some r.stream) (some r.quantity) ts db)
      simp only [resetLoop, resetRecords, auditInsert] at h ⊢
      refine ⟨h.1, h.2.1, ?_, ?_⟩
      · rw [h.2.2.1]; simp [List.append_assoc]
      · rw [h.2.2.2]; simp; omega

/-- Every record the reset loop appends is stamped with the single
timestamp computed before the loop. -/
lemma resetRecords_ts_map (n : Nat) (ts : String) (rows : List Entry) :
    (resetRecords n ts rows).map AuditRecord.ts = List.replicate rows.length ts := by
  induction rows generalizing n with
  | nil => simp [resetRecords]
  | cons r rest ih => simp [resetRecords, List.replicate_succ, ih]

/-- The reset loop appends exactly one record per fetched row. -/
lemma resetRecords_length (n : Nat) (ts : String) (rows : List Entry) :
    (resetRecords n ts rows).length = rows.length := by
  induction rows generalizing n with
  | nil => simp [resetRecords]
  | cons r rest ih => simp [resetRecords, ih]

/-- Row-by-row pairing between the cleared entries and the appended
records: each record is a `reset` event snapshotting that entry. -/
lemma resetRecords_sound (n : Nat) (ts : String) (rows : List Entry) :
    List.Forall₂ (fun e r => r.event = "reset" ∧ r.entry_date = some e.date ∧
      r.business = some e.business ∧ r.stream = some e.stream ∧
      r.quantity = some e.quantity ∧ r.ts = ts) rows (resetRecords n ts rows) := by
  induction rows generalizing n with
  | nil => exact List.Forall₂.nil
  | cons r rest ih =>
      exact List.Forall₂.cons ⟨rfl, rfl, rfl, rfl, rfl, rfl⟩ (ih (n + 1))

/-- Every id in the records appended by the reset loop is at least the
starting audit sequence value. -/
lemma resetRecords_id_ge (n : Nat) (ts : String) (rows : List Entry) :
    ∀ r ∈ resetRecords n ts rows, n ≤ r.id := by
  induction rows generalizing n with
  | nil => simp [resetRecords]
  | cons e rest ih =>
      intro r hr
      rcases (by simpa [resetRecords] using hr : r = _ ∨ r ∈ resetRecords (n + 1) ts rest) with h | h
      · rw [h]
      · exact le_trans (Nat.le_succ n) (ih (n + 1) r h)

/-! ## Claim theorems -/

/-- C1 (counterexample): deleting the absent id 5 from a fresh store does
not raise anything — `toOption` of the call is `some`, i.e. the call
returns normally — the database is unchanged and the Python value is
`None`; in particular it does not fail with `NotFoundError`. -/
theorem delete_absent_silent_ok :
    (delete_entry 5 "t0" dbEmpty).toOption = some (dbEmpty, (none : Option Nat)) := rfl

/-- C1 (amended): for every id that references no entry currently present,
`delete_entry` is a silent no-op: it returns normally with value `None`,
leaves both tables (in particular the audit table) unchanged, and raises
nothing. -/
theorem delete_absent_noop (k : Nat) (ts : String) (db : DB)
    (h : db.waste.find? (fun e => e.id == k) = none) :
    delete_entry k ts db = Except.ok (db, (none : Option Nat)) := by
  simp [delete_entry, h]

/-- C1 (witness): the amended no-op behaviour at a concrete absent id. -/
theorem delete_absent_noop_witness :
    dbEmpty.waste.find? (fun e => e.id == 5) = none ∧
    delete_entry 5 "t0" dbEmpty = Except.ok (dbEmpty, (none : Option Nat)) :=
  ⟨rfl, delete_absent_noop 5 "t0" dbEmpty rfl⟩

/-- C2 (counterexample): `"XX"` is not a configured business, yet
`insert_entry` succeeds, stores the out-of-domain entry and writes an
`insert` audit record for it; it does not fail with `ValidationError`. -/
theorem insert_invalid_business_ok :
    BUSINESSES.contains "XX" = false ∧
    (insert_entry "2024-01-05" "XX" "ACN" 5 "t0" dbEmpty).toOption =
      some ({ waste := [{ id := 1, date := "2024-01-05", business := "XX",
                          stream := "ACN", quantity := 5 }],
              wasteNextId := 2,
              audit := [{ id := 1, event := "insert",
                          entry_date := some "2024-01-05", business := some "XX",
                          stream := some "ACN", quantity := some 5, ts := "t0" }],
              auditNextId := 2 }, (none : Option Nat)) :=
  ⟨rfl, rfl⟩

/-- C2 (amended): `insert_entry` performs no validation and never raises:
for all arguments, in or out of the configured domains, it stores the
entry (with the next auto-assigned id) and appends exactly one `insert`
audit record carrying those argument values, returning `None`.  The
domain restriction of business/stream/quantity/date exists only in the UI
widgets of the presentation layer. -/
theorem insert_no_validation (d b s : String) (q : ℚ) (ts : String) (db : DB) :
    ∃ db1, insert_entry d b s q ts db = Except.ok (db1, (none : Option Nat)) ∧
      db1.waste = db.waste ++
        [{ id := db.wasteNextId, date := d, business := b, stream := s, quantity := q }] ∧
      db1.audit = db.audit ++
        [{ id := db.auditNextId, event := "insert", entry_date := some d,
           business := some b, stream := some s, quantity := some q, ts := ts }] :=
  ⟨_, rfl, rfl, rfl⟩

/-- C3 (counterexample): resetting a store that holds one entry returns the
Python value `None`, not the count 1 of cleared entries. -/
theorem reset_returns_no_count :
    dbOne.waste.length = 1 ∧
    (reset_inventory "t0" dbOne).2 = none ∧
    ((reset_inventory "t0" dbOne).2).isSome = false :=
  ⟨rfl, rfl, rfl⟩

/-- C3 (amended): `reset_inventory` appends exactly one `reset` audit
record per entry present — in table order, each snapshotting that entry's
date, business, stream, and quantity — then removes all entries; but it
returns `None`, not the count of cleared entries (on an empty store it
likewise writes zero records and returns `None`). -/
theorem reset_clears_and_logs (ts : String) (db : DB) :
    (reset_inventory ts db).1.waste = [] ∧
    (reset_inventory ts db).2 = none ∧
    ∃ tail, (reset_inventory ts db).1.audit = db.audit ++ tail ∧
      tail.length = db.waste.length ∧
      List.Forall₂ (fun e r => r.event = "reset" ∧ r.entry_date = some e.date ∧
        r.business = some e.business ∧ r.stream = some e.stream ∧
        r.quantity = some e.quantity ∧ r.ts = ts) db.waste tail := by
  have h := resetLoop_spec ts db.waste db
  refine ⟨rfl, rfl, resetRecords db.auditNextId ts db.waste, ?_,
    resetRecords_length db.auditNextId ts db.waste,
    resetRecords_sound db.auditNextId ts db.waste⟩
  show (resetLoop ts db.waste db).audit = _
  exact h.2.2.1

/-- C10: all audit records written by one `reset_inventory` call carry the
one timestamp computed before the per-entry loop: the appended tail maps
to `ts` replicated, so the records of a single reset share their
timestamp value. -/
theorem reset_records_share_timestamp (ts : String) (db : DB) :
    ∃ tail, (reset_inventory ts db).1.audit = db.audit ++ tail ∧
      tail.length = db.waste.length ∧
      tail.map AuditRecord.ts = List.replicate db.waste.length ts := by
  have h := resetLoop_spec ts db.waste db
  exact ⟨resetRecords db.auditNextId ts db.waste, h.2.2.1,
    resetRecords_length db.auditNextId ts db.waste,
    resetRecords_ts_map db.auditNextId ts db.waste⟩

/-- C9: `get_annual_total` equals the plain sum of `quantity` over exactly
the entries whose date starts with the four digits of the year — the SQL
`NULL` for an empty match and the Python falsiness of `0.0` both collapse
to the value the sum takes anyway, so the result is `0` (not an error, not
null: the return type is a number) when nothing matches. -/
theorem annual_total_is_filtered_sum (year : Nat) (db : DB) :
    get_annual_total year db = ((yearFilter db year).map (fun e => e.quantity)).sum := by
  rcases h : (yearFilter db year).map (fun e => e.quantity) with _ | ⟨x, xs⟩
  · simp [get_annual_total, sqlSum, h]
  · simp only [get_annual_total, sqlSum, h]
    split
    · next hz => exact hz.symm
    · rfl

/-- C4 (counterexample): a fully valid insertion (configured business and
stream, non-negative quantity, well-formed date) assigns the new id 1 to
the stored row, but the call's Python value is `None`: the new id is not
returned to the caller. -/
theorem insert_returns_no_id :
    BUSINESSES.contains "DAB" = true ∧ STREAMS.contains "ACN" = true ∧
    (insert_entry "2024-01-05" "DAB" "ACN" 300 "t0" dbEmpty).toOption =
      some ({ waste := [{ id := 1, date := "2024-01-05", business := "DAB",
                          stream := "ACN", quantity := 300 }],
              wasteNextId := 2,
              audit := [{ id := 1, event := "insert",
                          entry_date := some "2024-01-05", business := some "DAB",
                          stream := some "ACN", quantity := some 300, ts := "t0" }],
              auditNextId := 2 }, (none : Option Nat)) ∧
    ((none : Option Nat)).isSome = false :=
  ⟨rfl, rfl, rfl, rfl⟩

/-- C4 (amended): a successful `insert_entry` assigns a new id distinct
from every id currently in the store, appends the entry, and appends
exactly one `insert` audit record whose snapshot equals the arguments
passed — but it returns `None` rather than the new id. -/
theorem insert_fresh_id_and_pairing (d b s : String) (q : ℚ) (ts : String)
    (db : DB) (h : db.waste.all (fun e => e.id < db.wasteNextId) = true) :
    ∃ db1, insert_entry d b s q ts db = Except.ok (db1, (none : Option Nat)) ∧
      db1.waste = db.waste ++
        [{ id := db.wasteNextId, date := d, business := b, stream := s, quantity := q }] ∧
      db1.waste.length = db.waste.length + 1 ∧
      (∀ e0 ∈ db.waste, e0.id ≠ db.wasteNextId) ∧
      db1.audit = db.audit ++
        [{ id := db.auditNextId, event := "insert", entry_date := some d,
           business := some b, stream := some s, quantity := some q, ts := ts }] ∧
      db1.audit.length = db.audit.length + 1 := by
  refine ⟨_, rfl, rfl, by simp [auditInsert], ?_, rfl, by simp [auditInsert]⟩
  intro e0 he0
  have := (List.all_eq_true.mp h) e0 he0
  exact Nat.ne_of_lt (by simpa using this)

/-- C4 (witness): the amended statement applied to a store already holding
an entry, so the freshness conjunct is not vacuous. -/
theorem insert_fresh_id_and_pairing_witness :
    dbOne.waste.all (fun e => e.id < dbOne.wasteNextId) = true ∧
    (∃ db1, insert_entry "2024-01-05" "DAB" "ACN" 300 "t0" dbOne =
        Except.ok (db1, (none : Option Nat)) ∧
      db1.waste = dbOne.waste ++
        [{ id := dbOne.wasteNextId, date := "2024-01-05", business := "DAB",
           stream := "ACN", quantity := 300 }] ∧
      db1.waste.length = dbOne.waste.length + 1 ∧
      (∀ e0 ∈ dbOne.waste, e0.id ≠ dbOne.wasteNextId) ∧
      db1.audit = dbOne.audit ++
        [{ id := dbOne.auditNextId, event := "insert",
           entry_date := some "2024-01-05", business := some "DAB",
           stream := some "ACN", quantity := some 300, ts := "t0" }] ∧
      db1.audit.length = dbOne.audit.length + 1) :=
  ⟨by decide, insert_fresh_id_and_pairing "2024-01-05" "DAB" "ACN" 300 "t0" dbOne (by decide)⟩

/-- One operation only ever appends to the audit table. -/
lemma applyOp_audit (db : DB) (op : Op) :
    ∃ t, (applyOp db op).audit = db.audit ++ t := by
  cases op with
  | ins d b s q ts => exact ⟨_, rfl⟩
  | del k ts =>
      cases h : db.waste.find? (fun e => e.id == k) with
      | none => exact ⟨[], by simp [applyOp, delete_entry, h]⟩
      | some e =>
          exact ⟨[{ id := db.auditNextId, event := "delete",
                    entry_date := some e.date, business := some e.business,
                    stream := some e.stream, quantity := some e.quantity,
                    ts := ts }], by simp [applyOp, delete_entry, h, auditInsert]⟩
  | res ts => exact ⟨_, (resetLoop_spec ts db.waste db).2.2.1⟩

/-- A sequence of operations only ever appends to the audit table. -/
lemma runOps_audit (db : DB) (ops : List Op) :
    ∃ t, (runOps db ops).audit = db.audit ++ t := by
  induction ops generalizing db with
  | nil => exact ⟨[], by simp [runOps]⟩
  | cons op rest ih =>
      obtain ⟨t1, h1⟩ := applyOp_audit db op
      obtain ⟨t2, h2⟩ := ih (applyOp db op)
      refine ⟨t1 ++ t2, ?_⟩
      have : runOps db (op :: rest) = runOps (applyOp db op) rest := rfl
      rw [this, h2, h1, List.append_assoc]

/-- C5: the audit store is append-only under every sequence of
add/delete/reset operations: the audit table afterwards is the audit table
before followed by some tail of new records — so its length never
decreases, no record is deleted, and every record previously observable is
still present, unmodified and in its old position. -/
theorem audit_append_only (db : DB) (ops : List Op) :
    ∃ tail, (runOps db ops).audit = db.audit ++ tail ∧
      (runOps db ops).audit.length = db.audit.length + tail.length := by
  obtain ⟨t, ht⟩ := runOps_audit db ops
  exact ⟨t, ht, by rw [ht, List.length_append]⟩

/-- An entry present after one operation was either present before or
carries an id at least as large as the current waste sequence value. -/
lemma applyOp_waste_mem {db : DB} {op : Op} {e : Entry}
    (he : e ∈ (applyOp db op).waste) :
    e ∈ db.waste ∨ db.wasteNextId ≤ e.id := by
  cases op with
  | ins d b s q ts =>
      have he2 : e ∈ db.waste ∨
          e = { id := db.wasteNextId, date := d, business := b,
                stream := s, quantity := q } := by
        simpa [applyOp, insert_entry, auditInsert] using he
      rcases he2 with h | rfl
      · exact Or.inl h
      · exact Or.inr (le_refl _)
  | del k ts =>
      cases h : db.waste.find? (fun e => e.id == k) with
      | none =>
          left
          have he2 : e ∈ (applyOp db (Op.del k ts)).waste := he
          simp only [applyOp, delete_entry, h] at he2
          exact he2
      | some e1 =>
          left
          have he2 : e ∈ db.waste.filter (fun x => x.id != k) := by
            have he3 : e ∈ (applyOp db (Op.del k ts)).waste := he
            simp only [applyOp, delete_entry, h, auditInsert] at he3
            exact he3
          exact List.mem_of_mem_filter he2
  | res ts =>
      have he2 : e ∈ (applyOp db (Op.res ts)).waste := he
      simp [applyOp, reset_inventory] at he2

/-- The waste id sequence never decreases. -/
lemma applyOp_wasteNextId (db : DB) (op : Op) :
    db.wasteNextId ≤ (applyOp db op).wasteNextId := by
  cases op with
  | ins d b s q ts => exact Nat.le_succ _
  | del k ts =>
      cases h : db.waste.find? (fun e => e.id == k) with
      | none => simp [applyOp, delete_entry, h]
      | some e1 => simp [applyOp, delete_entry, h, auditInsert]
  | res ts =>
      have := (resetLoop_spec ts db.waste db).2.1
      simp [applyOp, reset_inventory, this]

/-- An audit record present after one operation was either present before
or carries an id at least as large as the current audit sequence value. -/
lemma applyOp_audit_mem {db : DB} {op : Op} {a : AuditRecord}
    (ha : a ∈ (applyOp db op).audit) :
    a ∈ db.audit ∨ db.auditNextId ≤ a.id := by
  cases op with
  | ins d b s q ts =>
      have ha2 : a ∈ db.audit ∨
          a = { id := db.auditNextId, event := "insert", entry_date := some d,
                business := some b, stream := some s, quantity := some q,
                ts := ts } := by
        simpa [applyOp, insert_entry, auditInsert] using ha
      rcases ha2 with h | rfl
      · exact Or.inl h
      · exact Or.inr (le_refl _)
  | del k ts =>
      cases h : db.waste.find? (fun e => e.id == k) with
      | none =>
          left
          have ha2 : a ∈ (applyOp db (Op.del k ts)).audit := ha
          simp only [applyOp, delete_entry, h] at ha2
          exact ha2
      | some e1 =>
          have ha2 : a ∈ db.audit ∨
              a = { id := db.auditNextId, event := "delete",
                    entry_date := some e1.date, business := some e1.business,
                    stream := some e1.stream, quantity := some e1.quantity,
                    ts := ts } := by
            have ha3 : a ∈ (applyOp db (Op.del k ts)).audit := ha
            simp only [applyOp, delete_entry, h, auditInsert] at ha3
            simpa using ha3
          rcases ha2 with hm | rfl
          · exact Or.inl hm
          · exact Or.inr (le_refl _)
  | res ts =>
      have hset := (resetLoop_spec ts db.waste db).2.2.1
      have ha2 : a ∈ db.audit ∨ a ∈ resetRecords db.auditNextId ts db.waste := by
        have ha3 : a ∈ (applyOp db (Op.res ts)).audit := ha
        simp only [applyOp, reset_inventory] at ha3
        rw [hset] at ha3
        exact List.mem_append.mp ha3
      rcases ha2 with hm | hm
      · exact Or.inl hm
      · exact Or.inr (resetRecords_id_ge db.auditNextId ts db.waste a hm)

/-- The audit id sequence never decreases. -/
lemma applyOp_auditNextId (db : DB) (op : Op) :
    db.auditNextId ≤ (applyOp db op).auditNextId := by
  cases op with
  | ins d b s q ts => exact Nat.le_succ _
  | del k ts =>
      cases h : db.waste.find? (fun e => e.id == k) with
      | none => simp [applyOp, delete_entry, h]
      | some e1 => simp [applyOp, delete_entry, h, auditInsert]
  | res ts =>
      have := (resetLoop_spec ts db.waste db).2.2.2
      simp [applyOp, reset_inventory, this]

/-- Across a whole sequence: surviving entries with an id below the initial
sequence value were already present initially. -/
lemma runOps_waste_old {db : DB} {ops : List Op} {e : Entry}
    (he : e ∈ (runOps db ops).waste) :
    e ∈ db.waste ∨ db.wasteNextId ≤ e.id := by
  induction ops generalizing db with
  | nil => exact Or.inl he
  | cons op rest ih =>
      have hstep : runOps db (op :: rest) = runOps (applyOp db op) rest := rfl
      rcases @ih (applyOp db op) (by rw [← hstep]; exact he) with h | h
      · exact applyOp_waste_mem h
      · exact Or.inr (le_trans (applyOp_wasteNextId db op) h)

/-- Across a whole sequence: audit records with an id below the initial
audit sequence value were already present initially. -/
lemma runOps_audit_old {db : DB} {ops : List Op} {a : AuditRecord}
    (ha : a ∈ (runOps db ops).audit) :
    a ∈ db.audit ∨ db.auditNextId ≤ a.id := by
  induction ops generalizing db with
  | nil => exact Or.inl ha
  | cons op rest ih =>
      have hstep : runOps db (op :: rest) = runOps (applyOp db op) rest := rfl
      rcases @ih (applyOp db op) (by rw [← hstep]; exact ha) with h | h
      · exact applyOp_audit_mem h
      · exact Or.inr (le_trans (applyOp_auditNextId db op) h)

/-- C6: id values are never reused in either store.  If the id `k` is below
the current waste sequence value (it was handed out before, e.g. `k = 5`
assigned and later deleted) and no present entry carries it, then no entry
produced by any subsequent operation sequence ever carries `k` again; and
every audit record whose id predates the current audit sequence value is
one of the records already present, never a new record reusing an old
id. -/
theorem no_id_reuse (db : DB) (ops : List Op) (k : Nat)
    (hk : k < db.wasteNextId)
    (habs : db.waste.all (fun e => e.id != k) = true)
    (e : Entry) (he : e ∈ (runOps db ops).waste)
    (a : AuditRecord) (haid : a.id < db.auditNextId)
    (ha : a ∈ (runOps db ops).audit) :
    (e.id == k) = false ∧ a ∈ db.audit := by
  constructor
  · rcases runOps_waste_old he with h | h
    · have := (List.all_eq_true.mp habs) e h
      simpa using this
    · simp only [beq_eq_false_iff_ne, ne_eq]
      omega
  · rcases runOps_audit_old ha with h | h
    · exact h
    · omega

/-- C6 (witness): in `dbW` the id 5 was handed out and deleted (sequence at
6, only id 3 present); after a further insertion the surviving entry still
does not carry id 5, and the old audit record (id 1) is one of the
pre-existing records. -/
theorem no_id_reuse_witness :
    5 < dbW.wasteNextId ∧
    dbW.waste.all (fun e => e.id != 5) = true ∧
    eW ∈ (runOps dbW opsW).waste ∧
    recW.id < dbW.auditNextId ∧
    recW ∈ (runOps dbW opsW).audit ∧
    ((eW.id == 5) = false ∧ recW ∈ dbW.audit) :=
  ⟨by decide, by decide, by decide, by decide, by decide,
    no_id_reuse dbW opsW 5 (by decide) (by decide) eW (by decide) recW
      (by decide) (by decide)⟩

/-- The source's percent gauge is exactly one hundred times the spec's
fraction. -/
lemma usage_percent_eq (mt cap : ℚ) :
    usage_percent mt cap = 100 * spec_usage_fraction mt cap := by
  by_cases h : 0 < cap
  · simp only [usage_percent, spec_usage_fraction, if_pos h]
    rcases le_total (mt / cap) 1 with h1 | h1
    · rw [min_eq_left h1, min_eq_left (by nlinarith : mt / cap * 100 ≤ 100)]
      ring
    · rw [min_eq_right h1, min_eq_right (by nlinarith : (100 : ℚ) ≤ mt / cap * 100)]
      norm_num
  · simp only [usage_percent, spec_usage_fraction, if_neg h]
    rw [min_eq_left (by norm_num : (0 : ℚ) ≤ 100)]
    norm_num

/-- C7: the source's capacity gauge implements the specified
`usage_fraction` scaled to percent — `usage_percent` equals `100 *
spec_usage_fraction` everywhere, the source's `>= 80` warning gate fires
exactly when the fraction is at least `0.8`, non-positive capacity yields
`0` (no division is attempted), and the boundary cases come out as
claimed: 800 of 1000 gives fraction `0.8` (exactly at the warning
threshold, warning on) and 1200 of 1000 clamps to fraction `1`. -/
theorem usage_percent_refines_fraction :
    (∀ mt cap : ℚ, usage_percent mt cap = 100 * spec_usage_fraction mt cap) ∧
    (∀ mt cap : ℚ, capacity_warning mt cap =
      is_over_warning_threshold (spec_usage_fraction mt cap)) ∧
    (∀ mt cap : ℚ, cap ≤ 0 → usage_percent mt cap = 0) ∧
    usage_percent 800 MAX_MASS_ON_SITE = 80 ∧
    capacity_warning 800 MAX_MASS_ON_SITE = true ∧
    spec_usage_fraction 800 1000 = 8 / 10 ∧
    is_over_warning_threshold (8 / 10) = true ∧
    usage_percent 1200 MAX_MASS_ON_SITE = 100 ∧
    spec_usage_fraction 1200 1000 = 1 := by
  have hpc : ∀ mt cap : ℚ, usage_percent mt cap = 100 * spec_usage_fraction mt cap :=
    usage_percent_eq
  refine ⟨hpc, ?_, ?_, ?_, ?_, ?_, ?_, ?_, ?_⟩
  · intro mt cap
    unfold capacity_warning is_over_warning_threshold
    rw [hpc mt cap]
    refine decide_eq_decide.mpr ?_
    constructor <;> intro h <;> linarith
  · intro mt cap h
    simp only [usage_percent, if_neg (not_lt.mpr h)]
    rw [min_eq_left (by norm_num : (0 : ℚ) ≤ 100)]
  · rw [hpc]
    norm_num [spec_usage_fraction, MAX_MASS_ON_SITE]
  · unfold capacity_warning
    rw [hpc]
    norm_num [spec_usage_fraction, MAX_MASS_ON_SITE]
  · norm_num [spec_usage_fraction]
  · unfold is_over_warning_threshold
    norm_num
  · rw [hpc]
    norm_num [spec_usage_fraction, MAX_MASS_ON_SITE]
  · norm_num [spec_usage_fraction]

/-- C7 (witness): the non-positive-capacity branch evaluated at capacity
`0` (the "no limit configured" case) really yields `0`. -/
theorem usage_percent_refines_fraction_witness :
    (0 : ℚ) ≤ 0 ∧ usage_percent 7 0 = 0 :=
  ⟨le_refl 0, usage_percent_refines_fraction.2.2.1 7 0 (le_refl 0)⟩

/-- The binary collation is total. -/
lemma charsLe_total : ∀ a b : List Char, charsLe a b = true ∨ charsLe b a = true := by
  intro a
  induction a with
  | nil => intro b; left; rfl
  | cons x xs ih =>
      intro b
      cases b with
      | nil => right; rfl
      | cons y ys =>
          by_cases h1 : x.toNat < y.toNat
          · left; simp [charsLe, h1]
          · by_cases h2 : y.toNat < x.toNat
            · right; simp [charsLe, h2]
            · rcases ih ys with h | h
              · left; simp [charsLe, h1, h2, h]
              · right; simp [charsLe, h1, h2, h]

/-- The binary collation is transitive. -/
lemma charsLe_trans :
    ∀ a b c : List Char, charsLe a b = true → charsLe b c = true → charsLe a c = true := by
  intro a
  induction a with
  | nil => intro b c _ _; rfl
  | cons x xs ih =>
      intro b c hab hbc
      cases b with
      | nil => simp [charsLe] at hab
      | cons y ys =>
          cases c with
          | nil => simp [charsLe] at hbc
          | cons z zs =>
              simp only [charsLe] at hab hbc ⊢
              by_cases hxy : x.toNat < y.toNat
              · by_cases hyz : y.toNat < z.toNat
                · simp [show x.toNat < z.toNat from by omega]
                · by_cases hzy : z.toNat < y.toNat
                  · simp [hyz, hzy] at hbc
                  · simp [show x.toNat < z.toNat from by omega]
              · by_cases hyx : y.toNat < x.toNat
                · simp [hxy, hyx] at hab
                · by_cases hyz : y.toNat < z.toNat
                  · simp [show x.toNat < z.toNat from by omega]
                  · by_cases hzy : z.toNat < y.toNat
                    · simp [hyz, hzy] at hbc
                    · have hxz : ¬ x.toNat < z.toNat := by omega
                      have hzx : ¬ z.toNat < x.toNat := by omega
                      rw [if_neg hxy, if_neg hyx] at hab
                      rw [if_neg hyz, if_neg hzy] at hbc
                      rw [if_neg hxz, if_neg hzx]
                      exact ih ys zs hab hbc

/-- C8 (counterexample): `db2` holds two entries with the same date
(`eA` with id 1, `eB` with id 2).  The list `[eB, eA]` — descending ids
inside the date tie — satisfies everything the source query guarantees
(it is a date-ascending arrangement of exactly the matching rows), yet it
is not ordered with ties broken by ascending id, and it differs from the
equally legitimate result `[eA, eB]`: the query's output is not pinned
down by the code, so the claimed deterministic id tie-break fails. -/
theorem monthly_tie_order_unspecified :
    IsMonthlyQueryResult db2 "2024-01" [eB, eA] ∧
    IsMonthlyQueryResult db2 "2024-01" [eA, eB] ∧
    decide (List.Pairwise claimOrder [eB, eA]) = false ∧
    decide (([eB, eA] : List Entry) = [eA, eB]) = false := by
  have hfil : monthlyFilter db2 "2024-01" = [eA, eB] := by decide
  refine ⟨⟨?_, by decide⟩, ⟨?_, by decide⟩, by decide, by decide⟩
  · rw [hfil]
    exact List.Perm.swap eA eB []
  · rw [hfil]

/-- C8 (amended): the deterministic stable-sort refinement
`get_monthly_entries` is a legitimate result of the source query, and
every legitimate result contains exactly the entries whose date matches
the requested year-month (with the right multiplicity), arranged
ascending by date; the arrangement inside a group of equal dates is all
the query fixes — nothing orders such groups by id. -/
theorem monthly_query_content_and_order (db : DB) (ym : String) :
    IsMonthlyQueryResult db ym (get_monthly_entries ym db) ∧
    ∀ res, IsMonthlyQueryResult db ym res →
      (∀ e, e ∈ res ↔ e ∈ db.waste ∧ likeMatch ym e.date = true) ∧
      res.Pairwise dateLe ∧
      res.length = (monthlyFilter db ym).length := by
  have htot : IsTotal Entry dateLe := ⟨fun a b => charsLe_total a.date.data b.date.data⟩
  have htrans : IsTrans Entry dateLe :=
    ⟨fun a b c hab hbc => charsLe_trans a.date.data b.date.data c.date.data hab hbc⟩
  constructor
  · exact ⟨List.perm_insertionSort dateLe _,
      @List.sorted_insertionSort Entry dateLe _ htot htrans _⟩
  · intro res hres
    refine ⟨?_, hres.2, hres.1.length_eq⟩
    intro e
    rw [hres.1.mem_iff]
    simp [monthlyFilter, List.mem_filter]

/-- C8 (amended, witness): the refinement really is a legitimate query
result on `db2`, and membership comes out right for the concrete entry
`eA`. -/
theorem monthly_query_content_and_order_witness :
    IsMonthlyQueryResult db2 "2024-01" (get_monthly_entries "2024-01" db2) ∧
    (eA ∈ get_monthly_entries "2024-01" db2 ↔
      eA ∈ db2.waste ∧ likeMatch "2024-01" eA.date = true) :=
  ⟨(monthly_query_content_and_order db2 "2024-01").1,
   ((monthly_query_content_and_order db2 "2024-01").2 _
     (monthly_query_content_and_order db2 "2024-01").1).1 eA⟩

end WasteTracker
